import Mathlib

/-!
Verification of the NFT tracker bot (source file src/unnamed/part_000).

The definitions below are a shallow embedding of the TypeScript source.
JavaScript numbers are modelled as extended rationals (type JSNum): a
finite rational, positive infinity, or negative infinity; NaN and absent
fields are modelled with Option. Network effects are modelled by passing
the outcome of each fetch as an explicit argument.
-/

/-- A JavaScript number that is not NaN: finite, or one of the two
infinities. NaN and undefined are represented by Option JSNum = none at
use sites. -/
inductive JSNum where
  | fin (q : ℚ)
  | inf
  | negInf
deriving DecidableEq

/-- JavaScript truthiness of a non-NaN number: 0 is falsy, everything
else (including infinities and negative numbers) is truthy. -/
def jsTruthy : JSNum → Bool
  | .fin q => q != 0
  | .inf => true
  | .negInf => true

/-- The comparison a <= b on JS numbers (no NaN involved). -/
def jsLe : JSNum → JSNum → Bool
  | .fin a, .fin b => a ≤ b
  | .fin _, .inf => true
  | .fin _, .negInf => false
  | .inf, .inf => true
  | .inf, .fin _ => false
  | .inf, .negInf => false
  | .negInf, _ => true

/-- The comparison a < b on JS numbers (no NaN involved). -/
def jsLt : JSNum → JSNum → Bool
  | .fin a, .fin b => a < b
  | .fin _, .inf => true
  | .fin _, .negInf => false
  | .inf, _ => false
  | .negInf, .negInf => false
  | .negInf, _ => true

/-- Multiplication by 1e9, as used in the alert comparison
currentPrice <= nft.alertPrice * 1e9. -/
def jsMulE9 : JSNum → JSNum
  | .fin q => .fin (q * 1000000000)
  | .inf => .inf
  | .negInf => .negInf

/-- The JS idiom value || dflt on an optional number: undefined and 0
fall back to the default. -/
def jsOrNum (v : Option JSNum) (dflt : JSNum) : JSNum :=
  match v with
  | none => dflt
  | some x => if jsTruthy x then x else dflt

/-- The JS idiom value || dflt on an optional string: undefined and the
empty string fall back to the default. -/
def jsStrOr (v : Option String) (dflt : String) : String :=
  match v with
  | none => dflt
  | some s => if s = "" then dflt else s

/-- The JS idiom value || undefined on an optional string: the empty
string collapses to undefined. -/
def jsStrOrNone (v : Option String) : Option String :=
  match v with
  | none => none
  | some s => if s = "" then none else some s

/-- The JS idiom value || dflt on an optional integer (used for
timestamps): undefined and 0 fall back to the default. -/
def jsIntOr (v : Option ℤ) (dflt : ℤ) : ℤ :=
  match v with
  | none => dflt
  | some t => if t = 0 then dflt else t

/-! ## Resilient Fetch: retryFetch (part_000 lines 517 to 542) -/

/-- An HTTP response as far as retryFetch inspects it: the ok flag and
the status code. -/
structure Response where
  ok : Bool
  status : ℕ
deriving DecidableEq

/-- The outcome of one call to fetch: either the promise rejects with a
transport error, or a response arrives (possibly with a non-success
status). -/
inductive FetchOutcome where
  | thrown (msg : String)
  | resp (r : Response)
deriving DecidableEq

/-- The errors retryFetch can record: a transport error, an HTTP status
error, or the fallback error when the loop never ran. -/
inductive FetchErr where
  | transport (msg : String)
  | http (status : ℕ)
deriving DecidableEq

/-- The error, if any, recorded by one attempt of retryFetch: a thrown
fetch produces a transport error, a non-ok response produces an HTTP
status error, and an ok response produces no error. -/
def retryStepErr : FetchOutcome → Option FetchErr
  | .thrown m => some (.transport m)
  | .resp r => if r.ok then none else some (.http r.status)

deriving instance DecidableEq for Except

/-- The observable trace of one retryFetch call: the final result, the
number of fetch attempts performed, and the list of backoff waits (in
milliseconds) inserted between attempts, in order. -/
structure RetryTrace where
  result : Except FetchErr Response
  attempts : ℕ
  waits : List ℚ
deriving DecidableEq

/-- The retry loop of retryFetch. The fetch behaviour is an oracle
giving the outcome of each numbered attempt. attempt is the 1-based
loop counter, fuel the number of iterations left (maxRetries at the
top call), lastError the error recorded so far. Mirrors the source:
an ok response returns immediately; otherwise the error is recorded
and, when attempt < maxRetries, a wait of delay times 1.5 to the power
(attempt - 1) is inserted before the next attempt; after the final
attempt the last error is thrown (or the fallback error if the loop
never ran). -/
def retryFetchGo (fetch : ℕ → FetchOutcome) (delay : ℚ) (maxRetries : ℕ) :
    ℕ → ℕ → Option FetchErr → RetryTrace
  | _, 0, lastError =>
    ⟨.error (lastError.getD (.transport "Maximum retries reached")), 0, []⟩
  | attempt, fuel + 1, _ =>
    match fetch attempt with
    | .resp r =>
      if r.ok then ⟨.ok r, 1, []⟩
      else
        if attempt < maxRetries then
          let rest := retryFetchGo fetch delay maxRetries (attempt + 1) fuel (some (.http r.status))
          ⟨rest.result, rest.attempts + 1, delay * (3 / 2 : ℚ) ^ (attempt - 1) :: rest.waits⟩
        else ⟨.error (.http r.status), 1, []⟩
    | .thrown m =>
      if attempt < maxRetries then
        let rest := retryFetchGo fetch delay maxRetries (attempt + 1) fuel (some (.transport m))
        ⟨rest.result, rest.attempts + 1, delay * (3 / 2 : ℚ) ^ (attempt - 1) :: rest.waits⟩
      else ⟨.error (.transport m), 1, []⟩

/-- retryFetch with an explicit fetch oracle: run the loop from attempt
1 with maxRetries iterations of fuel and no recorded error. -/
def retryFetch (fetch : ℕ → FetchOutcome) (delay : ℚ) (maxRetries : ℕ) : RetryTrace :=
  retryFetchGo fetch delay maxRetries 1 maxRetries none

/-! ## Timeout Guard: withTimeout (part_000 lines 499 to 514) -/

/-- The state of the internal timer of withTimeout: whether setTimeout
was called and whether clearTimeout was called. -/
structure TimerState where
  created : Bool
  cleared : Bool
deriving DecidableEq

/-- A timer is pending when it was created and never cleared. -/
def timerPending (t : TimerState) : Bool :=
  t.created && !t.cleared

/-- The clearTimeout call of the finally block. -/
def clearTimer (t : TimerState) : TimerState :=
  { t with cleared := true }

/-- Shallow embedding of withTimeout. The race between the wrapped
promise and the timer is modelled by the time opTime (in ms) at which
the operation settles, with outcome opResult; the operation wins the
race exactly when it settles strictly before the deadline, otherwise
the timer fires and the race rejects with the timeout error. The
finally block clears the timer on every path. Returns the race result
together with the final timer state. -/
def withTimeout {α : Type} (opTime : ℕ) (opResult : Except String α)
    (timeoutMs : ℕ) (errorMessage : String) : Except String α × TimerState :=
  let timer : TimerState := ⟨true, false⟩
  let raceResult : Except String α :=
    if opTime < timeoutMs then opResult
    else .error ("Timeout after " ++ toString timeoutMs ++ "ms: " ++ errorMessage)
  (raceResult, clearTimer timer)

/-! ## NFT Registry (part_000 lines 22 to 31, 197 to 357) -/

/-- One tracked NFT entry, mirroring interface TrackedNFT. -/
structure TrackedNFT where
  mintAddress : String
  chatId : ℤ
  name : String
  lastPrice : Option JSNum := none
  alertPrice : Option JSNum := none
  collection : Option String := none
deriving DecidableEq

/-- The fields of the Magic Eden token response that the track command
reads. -/
structure NFTMeta where
  name : Option String := none
  collection : Option String := none
  image : Option String := none
deriving DecidableEq

/-- Replies of the track command. -/
inductive TrackReply where
  | usage
  | alreadyTracked
  | fetchFailed
  | tracked
deriving DecidableEq

/-- Replies of the untrack command. -/
inductive UntrackReply where
  | usage
  | notTracked
  | removed
deriving DecidableEq

/-- Replies of the alert command. -/
inductive AlertReply where
  | usage
  | needTrack
  | confirmed
deriving DecidableEq

/-- The duplicate test of the track command: some entry already has
this mint address and chat id. -/
def hasKey (reg : List TrackedNFT) (mint : String) (chatId : ℤ) : Bool :=
  reg.any (fun nft => nft.mintAddress == mint && nft.chatId == chatId)

/-- The track command handler (lines 197 to 278). mint is the parsed
argument (none when absent); fetch is the outcome of the Magic Eden
token request, none when it failed or its body could not be parsed.
On success an entry is appended with name defaulted to Unnamed NFT,
collection passed through the || undefined idiom, and lastPrice and
alertPrice unset. -/
def trackCmd (reg : List TrackedNFT) (mint : Option String) (chatId : ℤ)
    (fetch : Option NFTMeta) : List TrackedNFT × TrackReply :=
  match mint with
  | none => (reg, .usage)
  | some m =>
    if m = "" then (reg, .usage)
    else if hasKey reg m chatId then (reg, .alreadyTracked)
    else
      match fetch with
      | none => (reg, .fetchFailed)
      | some md =>
        (reg ++ [{ mintAddress := m, chatId := chatId,
                   name := jsStrOr md.name "Unnamed NFT",
                   collection := jsStrOrNone md.collection }], .tracked)

/-- The untrack command handler (lines 280 to 297): findIndex on the
(mint, chatId) pair followed by splice(index, 1). -/
def untrackCmd (reg : List TrackedNFT) (mint : Option String) (chatId : ℤ) :
    List TrackedNFT × UntrackReply :=
  match mint with
  | none => (reg, .usage)
  | some m =>
    if m = "" then (reg, .usage)
    else
      match reg.findIdx? (fun nft => nft.mintAddress == m && nft.chatId == chatId) with
      | none => (reg, .notTracked)
      | some i => (reg.eraseIdx i, .removed)

/-- Assignment of alertPrice to the entry at a given index, mirroring
trackedNFTs[nftIndex].alertPrice = price. -/
def setAlertAt (price : JSNum) : ℕ → List TrackedNFT → List TrackedNFT
  | _, [] => []
  | 0, nft :: rest => { nft with alertPrice := some price } :: rest
  | i + 1, nft :: rest => nft :: setAlertAt price i rest

/-- The alert command handler (lines 339 to 357). price is the result
of parseFloat on the second argument, none when it is NaN. Any non-NaN
number (zero, negative, infinite) passes the isNaN gate and is stored. -/
def alertCmd (reg : List TrackedNFT) (chatId : ℤ) (mint : Option String)
    (price : Option JSNum) : List TrackedNFT × AlertReply :=
  match mint, price with
  | none, _ => (reg, .usage)
  | some _, none => (reg, .usage)
  | some m, some v =>
    if m = "" then (reg, .usage)
    else
      match reg.findIdx? (fun nft => nft.mintAddress == m && nft.chatId == chatId) with
      | none => (reg, .needTrack)
      | some i => (setAlertAt v i reg, .confirmed)

/-- A registry-mutating operation of the command surface, for stating
the registry invariant over arbitrary command sequences. -/
inductive BotOp where
  | track (mint : Option String) (chatId : ℤ) (fetch : Option NFTMeta)
  | untrack (mint : Option String) (chatId : ℤ)
  | alert (chatId : ℤ) (mint : Option String) (price : Option JSNum)
deriving DecidableEq

/-- Apply one operation to the registry, discarding the reply. -/
def applyOp (reg : List TrackedNFT) : BotOp → List TrackedNFT
  | .track mint chatId fetch => (trackCmd reg mint chatId fetch).1
  | .untrack mint chatId => (untrackCmd reg mint chatId).1
  | .alert chatId mint price => (alertCmd reg chatId mint price).1

/-- Apply a sequence of operations starting from the empty registry. -/
def applyOps (ops : List BotOp) : List TrackedNFT :=
  ops.foldl applyOp []

/-- The registry invariant: no two entries share the same
(mintAddress, chatId) pair. -/
def keysNodup (reg : List TrackedNFT) : Prop :=
  reg.Pairwise (fun a b => ¬(a.mintAddress = b.mintAddress ∧ a.chatId = b.chatId))

/-- getCollectionSubscribers (lines 190 to 194): filter on the
collection field, map to chat ids, no deduplication. -/
def getCollectionSubscribers (reg : List TrackedNFT) (collectionSymbol : String) : List ℤ :=
  (reg.filter (fun nft => nft.collection == some collectionSymbol)).map (fun nft => nft.chatId)

/-! ## Alert Evaluator: the 30 second price check loop (lines 360 to 404) -/

/-- The outcome of the Magic Eden token fetch inside the price loop:
fail covers both a thrown error and a non-ok response (both leave the
entry untouched and move on); success carries the optional price field
of the parsed body. -/
inductive TokenFetch where
  | fail
  | success (price : Option JSNum)
deriving DecidableEq

/-- A price alert notification as sent by the loop: the target chat,
the current price shown, and the alertPrice field at send time. -/
structure PriceAlert where
  chatId : ℤ
  currentPrice : JSNum
  alertShown : Option JSNum
deriving DecidableEq

/-- The trigger test of the loop, read off the source condition
nft.alertPrice && currentPrice > 0 && currentPrice <= nft.alertPrice * 1e9.
The first conjunct is JS truthiness of the alertPrice field. -/
def triggerCond (alertPrice : Option JSNum) (currentPrice : JSNum) : Bool :=
  match alertPrice with
  | none => false
  | some a => jsTruthy a && jsLt (.fin 0) currentPrice && jsLe currentPrice (jsMulE9 a)

/-- One iteration of the price check loop for one entry: on a failed
fetch the entry is skipped; on success currentPrice is nftData.price
or 0, the alert fires (one message, alertPrice cleared) exactly when
triggerCond holds, and lastPrice is overwritten unconditionally. -/
def checkNFTPrice (nft : TrackedNFT) (res : TokenFetch) : TrackedNFT × List PriceAlert :=
  match res with
  | .fail => (nft, [])
  | .success p =>
    let currentPrice := jsOrNum p (.fin 0)
    if triggerCond nft.alertPrice currentPrice then
      ({ nft with alertPrice := none, lastPrice := some currentPrice },
       [⟨nft.chatId, currentPrice, nft.alertPrice⟩])
    else
      ({ nft with lastPrice := some currentPrice }, [])

/-- One full poll cycle: every tracked entry is processed in order,
each with the outcome of its own fetch. Returns the updated entries
and all notifications sent, in order. -/
def priceCheckCycle : List (TrackedNFT × TokenFetch) → List TrackedNFT × List PriceAlert
  | [] => ([], [])
  | (nft, res) :: rest =>
    let step := checkNFTPrice nft res
    let restOut := priceCheckCycle rest
    (step.1 :: restOut.1, step.2 ++ restOut.2)

/-! ## The list command (lines 300 to 337) -/

/-- The outcome of the per-entry token fetch of the list command. -/
inductive ListFetch where
  | fail
  | success (name : Option String) (collection : Option String)
deriving DecidableEq

/-- One semantic line of the list message for one entry. -/
inductive ListLine where
  | header (name : Option String)
  | mintLine (shortened : String)
  | collectionLine (display : String)
  | alertLine (price : JSNum)
  | errorLine (mint : String)
deriving DecidableEq

/-- The message fragment the list command builds for one entry: on a
failed fetch a single error line; on success a header, the shortened
mint, the collection (with the || N/A idiom), and an alert line only
when the alertPrice field is truthy. -/
def listEntryLines (nft : TrackedNFT) (res : ListFetch) : List ListLine :=
  match res with
  | .fail => [.errorLine nft.mintAddress]
  | .success nm coll =>
    [.header nm,
     .mintLine (nft.mintAddress.take 6 ++ "..." ++ nft.mintAddress.takeRight 4),
     .collectionLine (jsStrOr coll "N/A")] ++
    (match nft.alertPrice with
     | some a => if jsTruthy a then [.alertLine a] else []
     | none => [])

/-! ## Collection Registry and Poller (lines 34 to 48, 153 to 187, 407 to 411) -/

/-- The last sale record of a collection snapshot. -/
structure LastSale where
  price : JSNum
  timestamp : ℤ
  tokenMint : String
deriving DecidableEq

/-- One collection snapshot, mirroring interface CollectionActivity. -/
structure CollectionActivity where
  symbol : String
  name : Option String := none
  marketplace_url : Option String := none
  floorPrice : Option JSNum := none
  lastSale : Option LastSale := none
  volume24h : JSNum
  listedCount : JSNum
deriving DecidableEq

/-- The stats fields of the Magic Eden collection stats response that
the poller reads. -/
structure MEStats where
  floorPrice : Option JSNum := none
  volumeAll : Option JSNum := none
  listedCount : Option JSNum := none
deriving DecidableEq

/-- One activity item as read by the collection poller: the optional
price, the createdAt timestamp converted to milliseconds (none when
the date is invalid), and the token mint. -/
structure MEAsset where
  price : Option JSNum := none
  createdAtMs : Option ℤ := none
  tokenMint : Option String := none
deriving DecidableEq

/-- The value returned by getAssetsByGroup: the activity list and the
optional stats. On any fetch error the function catches internally and
returns an empty list with no stats, so a failed poll is represented
by assets = []. -/
structure CollFetch where
  assets : List MEAsset
  stats : Option MEStats
deriving DecidableEq

/-- The collection registry: the trackedCollections object, modelled
as a map from symbol to snapshot. -/
def CollReg : Type := String → Option CollectionActivity

/-- The snapshot written by trackCollectionActivity on a successful
poll with first activity a. Built only from the fetched data and the
current wall clock time; name and marketplace_url are not set by this
write. -/
def collSnapshot (symbol : String) (stats : Option MEStats) (a : MEAsset) (now : ℤ) :
    CollectionActivity :=
  { symbol := symbol
    floorPrice := some (jsOrNum (stats.bind (fun s => s.floorPrice)) (.fin 0))
    volume24h := jsOrNum (stats.bind (fun s => s.volumeAll)) (.fin 0)
    listedCount := jsOrNum (stats.bind (fun s => s.listedCount)) (.fin 0)
    lastSale := some { price := jsOrNum a.price (.fin 0)
                       timestamp := jsIntOr a.createdAtMs now
                       tokenMint := jsStrOr a.tokenMint "" } }

/-- trackCollectionActivity (lines 153 to 187): a failed fetch arrives
as assets = [] (getAssetsByGroup catches internally) and the function
returns early leaving the registry untouched; a thrown error inside
the body is caught by the top level catch with the same effect. On a
nonempty activity list the snapshot for the symbol is overwritten
wholesale. -/
def trackCollectionActivity (reg : CollReg) (symbol : String) (fetch : CollFetch)
    (now : ℤ) : CollReg :=
  match fetch.assets with
  | [] => reg
  | a :: _ => fun s => if s = symbol then some (collSnapshot symbol fetch.stats a now) else reg s

/-- The 5 minute poll cycle (lines 407 to 411): every tracked symbol is
polled in turn, each with the outcome of its own fetch. -/
def collPollCycle (reg : CollReg) (symbols : List String) (fetchOf : String → CollFetch)
    (now : ℤ) : CollReg :=
  symbols.foldl (fun r s => trackCollectionActivity r s (fetchOf s) now) reg

/-! ## Sale Notifier: lastBuy (lines 633 to 808) -/

/-- One marketplace activity as read by lastBuy. -/
structure MEActivity where
  blockTime : Option ℤ := none
  price : Option JSNum := none
  tokenMint : Option String := none
  buyer : Option String := none
deriving DecidableEq

/-- The recency test of lastBuy, read off the source condition
activity.blockTime && activity.blockTime >= oneMinuteAgo with
oneMinuteAgo = now - 60 (seconds). The first conjunct is JS truthiness
of the blockTime field. -/
def recentFilterME (now : ℤ) (a : MEActivity) : Bool :=
  match a.blockTime with
  | none => false
  | some t => t != 0 && now - 60 ≤ t

/-- The recency predicate as the specification words it: the block
timestamp is present and falls within the last 60 seconds. -/
def recentFilterSpec (now : ℤ) (a : MEActivity) : Bool :=
  match a.blockTime with
  | none => false
  | some t => now - 60 ≤ t

/-- The recentActivities list of lastBuy: the fetched activities
filtered by the recency test, in API order. -/
def recentActivities (now : ℤ) (acts : List MEActivity) : List MEActivity :=
  acts.filter (recentFilterME now)

/-- The sales actually processed: recentActivities.slice(0, limit). -/
def processedSales (now : ℤ) (limit : ℕ) (acts : List MEActivity) : List MEActivity :=
  (recentActivities now acts).take limit

/-! ## Safe image delivery: safelySendImage (lines 545 to 631) -/

/-- The outcome of one delivery attempt: the send call either resolves
or throws (a timeout from withTimeout counts as a throw). -/
inductive SendAttempt where
  | success
  | failure
deriving DecidableEq

/-- The observable trace of one safelySendImage call: which delivery
methods were attempted in order (1 = photo with caption, 2 = link
preview with caption, 3 = caption only text), which method first
succeeded if any, and the boolean the function returns. -/
structure SendTrace where
  attempted : List ℕ
  delivered : Option ℕ
  returnValue : Bool
deriving DecidableEq

/-- safelySendImage given the outcome each delivery method would have:
method 1 is tried first and a success returns true at once; on its
failure method 2 is tried and a success returns true; on its failure
method 3 is tried, and the function returns false whether or not it
succeeds (a throw in method 3 reaches the outer catch, which also
returns false). -/
def safelySendImage (a1 a2 a3 : SendAttempt) : SendTrace :=
  match a1 with
  | .success => ⟨[1], some 1, true⟩
  | .failure =>
    match a2 with
    | .success => ⟨[1, 2], some 2, true⟩
    | .failure =>
      match a3 with
      | .success => ⟨[1, 2, 3], some 3, false⟩
      | .failure => ⟨[1, 2, 3], none, false⟩

/-! ## Concrete instances used by witnesses and counterexamples -/

/-- A fetch behaviour whose first attempt throws and whose second
attempt returns an ok response. -/
def wfetchMixed : ℕ → FetchOutcome :=
  fun k => if k ≤ 1 then .thrown "err" else .resp ⟨true, 200⟩

/-- A fetch behaviour that always returns HTTP 500. -/
def wfetchAllFail : ℕ → FetchOutcome :=
  fun _ => .resp ⟨false, 500⟩

/-- A registry in which one chat (id 5) tracks two different NFTs of
the same collection c. Reachable by two track commands and satisfying
the registry invariant. -/
def subsExample : List TrackedNFT :=
  [{ mintAddress := "m1", chatId := 5, name := "a", collection := some "c" },
   { mintAddress := "m2", chatId := 5, name := "b", collection := some "c" }]

/-- The empty collection registry. -/
def emptyCollReg : CollReg := fun _ => none

/-- A successful collection fetch with one activity, used by the
collection poller witness. -/
def collFetchExample : CollFetch :=
  { assets := [{ price := some (.fin 2), createdAtMs := some 5, tokenMint := some "tm" }]
    stats := some { floorPrice := some (.fin 7), listedCount := some (.fin 3) } }

/-! ## Helper lemmas about the retry loop -/

theorem retryFetchGo_succ_step (fetch : ℕ → FetchOutcome) (d : ℚ) (maxRetries : ℕ)
    (attempt f : ℕ) (le : Option FetchErr) (r : Response)
    (h : fetch attempt = .resp r) (hok : r.ok = true) :
    retryFetchGo fetch d maxRetries attempt (f + 1) le = ⟨.ok r, 1, []⟩ := by
  simp [retryFetchGo, h, hok]

theorem retryFetchGo_fail_step (fetch : ℕ → FetchOutcome) (d : ℚ) (maxRetries : ℕ)
    (attempt f : ℕ) (le : Option FetchErr) (e : FetchErr)
    (h : retryStepErr (fetch attempt) = some e) :
    retryFetchGo fetch d maxRetries attempt (f + 1) le =
      if attempt < maxRetries then
        ⟨(retryFetchGo fetch d maxRetries (attempt + 1) f (some e)).result,
         (retryFetchGo fetch d maxRetries (attempt + 1) f (some e)).attempts + 1,
         d * (3 / 2 : ℚ) ^ (attempt - 1) ::
           (retryFetchGo fetch d maxRetries (attempt + 1) f (some e)).waits⟩
      else ⟨.error e, 1, []⟩ := by
  cases hf : fetch attempt with
  | thrown m =>
    rw [hf] at h
    simp only [retryStepErr, Option.some.injEq] at h
    subst h
    simp [retryFetchGo, hf]
  | resp r =>
    rw [hf] at h
    simp only [retryStepErr] at h
    by_cases hok : r.ok
    · rw [hok] at h; simp at h
    · simp only [Bool.not_eq_true] at hok
      rw [hok] at h
      simp only [Bool.false_eq_true, if_false, Option.some.injEq] at h
      subst h
      simp [retryFetchGo, hf, hok]

theorem retryFetchGo_attempts_pos (fetch : ℕ → FetchOutcome) (d : ℚ) (maxRetries : ℕ)
    (f attempt : ℕ) (le : Option FetchErr) :
    1 ≤ (retryFetchGo fetch d maxRetries attempt (f + 1) le).attempts := by
  cases hstep : retryStepErr (fetch attempt) with
  | none =>
    have : ∃ r, fetch attempt = .resp r ∧ r.ok = true := by
      cases hf : fetch attempt with
      | thrown m => rw [hf] at hstep; simp [retryStepErr] at hstep
      | resp r =>
        rw [hf] at hstep
        by_cases hok : r.ok
        · exact ⟨r, rfl, hok⟩
        · simp only [Bool.not_eq_true] at hok
          simp [retryStepErr, hok] at hstep
    obtain ⟨r, hf, hok⟩ := this
    rw [retryFetchGo_succ_step fetch d maxRetries attempt f le r hf hok]
  | some e =>
    rw [retryFetchGo_fail_step fetch d maxRetries attempt f le e hstep]
    by_cases hlt : attempt < maxRetries
    · rw [if_pos hlt]; exact Nat.le_add_left 1 _
    · rw [if_neg hlt]

theorem retryFetchGo_ok_is_ok (fetch : ℕ → FetchOutcome) (d : ℚ) (maxRetries : ℕ) :
    ∀ fuel attempt le r, (retryFetchGo fetch d maxRetries attempt fuel le).result = .ok r →
      r.ok = true := by
  intro fuel
  induction fuel with
  | zero => intro attempt le r h; simp [retryFetchGo] at h
  | succ f ih =>
    intro attempt le r h
    cases hstep : retryStepErr (fetch attempt) with
    | none =>
      have : ∃ r0, fetch attempt = .resp r0 ∧ r0.ok = true := by
        cases hf : fetch attempt with
        | thrown m => rw [hf] at hstep; simp [retryStepErr] at hstep
        | resp r0 =>
          rw [hf] at hstep
          by_cases hok : r0.ok
          · exact ⟨r0, rfl, hok⟩
          · simp only [Bool.not_eq_true] at hok
            simp [retryStepErr, hok] at hstep
      obtain ⟨r0, hf, hok⟩ := this
      rw [retryFetchGo_succ_step fetch d maxRetries attempt f le r0 hf hok] at h
      simp only [Except.ok.injEq] at h
      rw [← h]
      exact hok
    | some e =>
      rw [retryFetchGo_fail_step fetch d maxRetries attempt f le e hstep] at h
      by_cases hlt : attempt < maxRetries
      · rw [if_pos hlt] at h
        exact ih (attempt + 1) (some e) r h
      · rw [if_neg hlt] at h
        simp at h

theorem retryStepErr_none_elim (o : FetchOutcome) (h : retryStepErr o = none) :
    ∃ r, o = .resp r ∧ r.ok = true := by
  cases o with
  | thrown m => simp [retryStepErr] at h
  | resp r =>
    by_cases hok : r.ok
    · exact ⟨r, rfl, hok⟩
    · simp only [Bool.not_eq_true] at hok
      simp [retryStepErr, hok] at h

theorem retryFetchGo_waits (fetch : ℕ → FetchOutcome) (d : ℚ) (maxRetries : ℕ) :
    ∀ fuel attempt le, maxRetries + 1 ≤ attempt + fuel → 1 ≤ attempt →
      (retryFetchGo fetch d maxRetries attempt fuel le).waits =
        (List.range ((retryFetchGo fetch d maxRetries attempt fuel le).attempts - 1)).map
          (fun i => d * (3 / 2 : ℚ) ^ (attempt - 1 + i)) := by
  intro fuel
  induction fuel with
  | zero => intro attempt le _ _; simp [retryFetchGo]
  | succ f ih =>
    intro attempt le htot hatt
    cases hstep : retryStepErr (fetch attempt) with
    | none =>
      obtain ⟨r, hf, hok⟩ := retryStepErr_none_elim _ hstep
      rw [retryFetchGo_succ_step fetch d maxRetries attempt f le r hf hok]
      simp
    | some e =>
      rw [retryFetchGo_fail_step fetch d maxRetries attempt f le e hstep]
      by_cases hlt : attempt < maxRetries
      · rw [if_pos hlt]
        have hf1 : 1 ≤ f := by omega
        obtain ⟨f', rfl⟩ : ∃ f', f = f' + 1 := ⟨f - 1, by omega⟩
        have hpos := retryFetchGo_attempts_pos fetch d maxRetries f' (attempt + 1) (some e)
        have hrest := ih (attempt + 1) (some e) (by omega) (by omega)
        obtain ⟨m, hm⟩ : ∃ m,
            (retryFetchGo fetch d maxRetries (attempt + 1) (f' + 1) (some e)).attempts
              = m + 1 :=
          ⟨(retryFetchGo fetch d maxRetries (attempt + 1) (f' + 1) (some e)).attempts - 1,
           by omega⟩
        rw [hm] at hrest
        simp only [Nat.add_sub_cancel] at hrest
        show d * (3 / 2 : ℚ) ^ (attempt - 1) ::
            (retryFetchGo fetch d maxRetries (attempt + 1) (f' + 1) (some e)).waits =
          (List.range
            ((retryFetchGo fetch d maxRetries (attempt + 1) (f' + 1) (some e)).attempts
              + 1 - 1)).map (fun i => d * (3 / 2 : ℚ) ^ (attempt - 1 + i))
        rw [hm, hrest]
        simp only [Nat.add_sub_cancel, List.range_succ_eq_map, List.map_cons, List.map_map]
        have hfun : ((fun i => d * (3 / 2 : ℚ) ^ (attempt - 1 + i)) ∘ Nat.succ)
            = fun i => d * (3 / 2 : ℚ) ^ (attempt + i) := by
          funext i
          show d * (3 / 2 : ℚ) ^ (attempt - 1 + (i + 1)) = d * (3 / 2 : ℚ) ^ (attempt + i)
          rw [show attempt - 1 + (i + 1) = attempt + i from by omega]
        rw [hfun, Nat.add_zero]
      · rw [if_neg hlt]
        simp

theorem retryFetchGo_succ_result (fetch : ℕ → FetchOutcome) (d : ℚ) (maxRetries : ℕ) :
    ∀ N attempt fuel le r,
      (∀ k, k < N → (retryStepErr (fetch (attempt + k))).isSome = true) →
      fetch (attempt + N) = .resp r → r.ok = true →
      N < fuel → attempt + N ≤ maxRetries →
      (retryFetchGo fetch d maxRetries attempt fuel le).result = .ok r ∧
      (retryFetchGo fetch d maxRetries attempt fuel le).attempts = N + 1 := by
  intro N
  induction N with
  | zero =>
    intro attempt fuel le r _ hsucc hok hfuel _
    obtain ⟨f, rfl⟩ : ∃ f, fuel = f + 1 := ⟨fuel - 1, by omega⟩
    rw [Nat.add_zero] at hsucc
    rw [retryFetchGo_succ_step fetch d maxRetries attempt f le r hsucc hok]
    exact ⟨rfl, rfl⟩
  | succ n ih =>
    intro attempt fuel le r hfail hsucc hok hfuel hbound
    obtain ⟨f, rfl⟩ : ∃ f, fuel = f + 1 := ⟨fuel - 1, by omega⟩
    obtain ⟨e, he⟩ : ∃ e, retryStepErr (fetch attempt) = some e := by
      have h0 := hfail 0 (by omega)
      rw [Nat.add_zero] at h0
      exact Option.isSome_iff_exists.mp h0
    rw [retryFetchGo_fail_step fetch d maxRetries attempt f le e he]
    have hlt : attempt < maxRetries := by omega
    rw [if_pos hlt]
    have hrec := ih (attempt + 1) f (some e) r
      (fun k hk => by
        have := hfail (k + 1) (by omega)
        rwa [show attempt + (k + 1) = attempt + 1 + k from by omega] at this)
      (by rwa [show attempt + 1 + n = attempt + (n + 1) from by omega])
      hok (by omega) (by omega)
    exact ⟨hrec.1, by simp [hrec.2]⟩

theorem retryFetchGo_allfail (fetch : ℕ → FetchOutcome) (d : ℚ) (maxRetries : ℕ) :
    ∀ fuel attempt le e,
      1 ≤ fuel → attempt + fuel = maxRetries + 1 →
      (∀ k, k < fuel → (retryStepErr (fetch (attempt + k))).isSome = true) →
      retryStepErr (fetch maxRetries) = some e →
      (retryFetchGo fetch d maxRetries attempt fuel le).result = .error e ∧
      (retryFetchGo fetch d maxRetries attempt fuel le).attempts = fuel := by
  intro fuel
  induction fuel with
  | zero => intro attempt le e h; omega
  | succ f ih =>
    intro attempt le e _ htot hfail hlast
    obtain ⟨e0, he0⟩ : ∃ e0, retryStepErr (fetch attempt) = some e0 := by
      have h0 := hfail 0 (by omega)
      rw [Nat.add_zero] at h0
      exact Option.isSome_iff_exists.mp h0
    rw [retryFetchGo_fail_step fetch d maxRetries attempt f le e0 he0]
    by_cases hlt : attempt < maxRetries
    · rw [if_pos hlt]
      have hf1 : 1 ≤ f := by omega
      have hrec := ih (attempt + 1) (some e0) e hf1 (by omega)
        (fun k hk => by
          have := hfail (k + 1) (by omega)
          rwa [show attempt + (k + 1) = attempt + 1 + k from by omega] at this)
        hlast
      exact ⟨hrec.1, by simp [hrec.2]⟩
    · rw [if_neg hlt]
      have hatt : attempt = maxRetries := by omega
      have hee : e0 = e := by
        rw [hatt] at he0
        exact Option.some_inj.mp (he0.symm.trans hlast)
      have hfz : f = 0 := by omega
      subst hee hfz
      exact ⟨rfl, rfl⟩

/-- Claim C1: for maxRetries at least 1, if the first N attempts of
retryFetch fail and attempt N + 1 succeeds with N < maxRetries, then
exactly N + 1 attempts are performed and the successful response is
returned; if all maxRetries attempts fail, exactly maxRetries attempts
are performed and the last observed error is thrown, and no response
(in particular no non-success response) is ever returned. -/
theorem retryFetch_resilience (fetch : ℕ → FetchOutcome) (d : ℚ) (maxRetries : ℕ)
    (hmax : 1 ≤ maxRetries) :
    (∀ N r, (∀ k, k < N → (retryStepErr (fetch (k + 1))).isSome = true) →
       fetch (N + 1) = .resp r → r.ok = true → N < maxRetries →
       (retryFetch fetch d maxRetries).result = .ok r ∧
       (retryFetch fetch d maxRetries).attempts = N + 1) ∧
    ((∀ k, k < maxRetries → (retryStepErr (fetch (k + 1))).isSome = true) →
       (retryFetch fetch d maxRetries).attempts = maxRetries ∧
       (∀ e, retryStepErr (fetch maxRetries) = some e →
         (retryFetch fetch d maxRetries).result = .error e) ∧
       (∀ r, (retryFetch fetch d maxRetries).result ≠ .ok r)) := by
  simp only [retryFetch]
  constructor
  · intro N r hfail hsucc hok hN
    exact retryFetchGo_succ_result fetch d maxRetries N 1 maxRetries none r
      (fun k hk => by rw [show (1 : ℕ) + k = k + 1 from by omega]; exact hfail k hk)
      (by rwa [show (1 : ℕ) + N = N + 1 from by omega]) hok (by omega) (by omega)
  · intro hfail
    obtain ⟨eL, heL⟩ : ∃ eL, retryStepErr (fetch maxRetries) = some eL := by
      have h := hfail (maxRetries - 1) (by omega)
      rw [show maxRetries - 1 + 1 = maxRetries from by omega] at h
      exact Option.isSome_iff_exists.mp h
    have hall := retryFetchGo_allfail fetch d maxRetries maxRetries 1 none eL
      hmax (by omega)
      (fun k hk => by
        rw [show (1 : ℕ) + k = k + 1 from by omega]; exact hfail k hk)
      heL
    refine ⟨hall.2, fun e he => ?_, fun r hr => ?_⟩
    · rw [Option.some_inj.mp (he.symm.trans heL)]
      exact hall.1
    · rw [hall.1] at hr
      simp at hr

/-- Witness for claim C1: one transport failure followed by an ok
response gives the response after exactly 2 attempts; three HTTP 500
responses with maxRetries 3 give exactly 3 attempts and the HTTP 500
error. -/
theorem retryFetch_resilience_witness :
    (retryFetch wfetchMixed 1000 3).result = .ok ⟨true, 200⟩ ∧
    (retryFetch wfetchMixed 1000 3).attempts = 2 ∧
    (retryFetch wfetchAllFail 1000 3).attempts = 3 ∧
    (retryFetch wfetchAllFail 1000 3).result = .error (.http 500) := by
  have h1 := (retryFetch_resilience wfetchMixed 1000 3 (by decide)).1 1 ⟨true, 200⟩
    (by decide) (by decide) (by decide) (by decide)
  have h2 := (retryFetch_resilience wfetchAllFail 1000 3 (by decide)).2 (by decide)
  exact ⟨h1.1, h1.2, h2.1, h2.2.1 (.http 500) (by decide)⟩

/-- Claim C9: the backoff waits of retryFetch form exactly the schedule
delay times 1.5 to the power (k - 1) for the k-th failed non-final
attempt: the wait list is the range map of that schedule, its length is
attempts - 1 (so no wait follows the final attempt), and the wait
recorded after failed attempt k (1-based, k below the attempt count) is
exactly delay times 1.5 to the power (k - 1). -/
theorem retryFetch_backoff (fetch : ℕ → FetchOutcome) (d : ℚ) (maxRetries : ℕ) :
    (retryFetch fetch d maxRetries).waits =
      (List.range ((retryFetch fetch d maxRetries).attempts - 1)).map
        (fun i => d * (3 / 2 : ℚ) ^ i) ∧
    (retryFetch fetch d maxRetries).waits.length =
      (retryFetch fetch d maxRetries).attempts - 1 ∧
    (∀ k, 1 ≤ k → k < (retryFetch fetch d maxRetries).attempts →
      (retryFetch fetch d maxRetries).waits[k - 1]? =
        some (d * (3 / 2 : ℚ) ^ (k - 1))) := by
  have hw := retryFetchGo_waits fetch d maxRetries maxRetries 1 none (by omega) (by omega)
  have hw' : (retryFetch fetch d maxRetries).waits =
      (List.range ((retryFetch fetch d maxRetries).attempts - 1)).map
        (fun i => d * (3 / 2 : ℚ) ^ i) := by
    simp only [retryFetch]
    rw [hw]
    simp
  refine ⟨hw', ?_, ?_⟩
  · rw [hw']
    simp
  · intro k hk1 hk2
    rw [hw', List.getElem?_map, List.getElem?_range (by omega)]
    rfl

/-- Witness for claim C9: with base delay 1000 and three failing
attempts, the two waits are 1000 ms and 1500 ms. -/
theorem retryFetch_backoff_witness :
    (retryFetch wfetchAllFail 1000 3).waits[0]? = some 1000 ∧
    (retryFetch wfetchAllFail 1000 3).waits[1]? = some 1500 := by
  have h := (retryFetch_backoff wfetchAllFail 1000 3).2.2
  constructor
  · have h1 := h 1 (by decide) (by decide)
    norm_num at h1
    exact h1
  · have h2 := h 2 (by decide) (by decide)
    norm_num at h2
    exact h2

/-- Claim C4: withTimeout resolves with the operation outcome when the
operation settles before the deadline, otherwise rejects with the
timeout error carrying the deadline and the caller description; on both
paths the internal timer ends up cleared (no pending timer). -/
theorem withTimeout_guard {α : Type} (opTime : ℕ) (opResult : Except String α)
    (timeoutMs : ℕ) (errorMessage : String) :
    (opTime < timeoutMs →
      (withTimeout opTime opResult timeoutMs errorMessage).1 = opResult) ∧
    (timeoutMs ≤ opTime →
      (withTimeout opTime opResult timeoutMs errorMessage).1 =
        .error ("Timeout after " ++ toString timeoutMs ++ "ms: " ++ errorMessage)) ∧
    timerPending (withTimeout opTime opResult timeoutMs errorMessage).2 = false := by
  refine ⟨fun h => ?_, fun h => ?_, ?_⟩
  · simp [withTimeout, h]
  · simp [withTimeout, Nat.not_lt.mpr h]
  · simp [withTimeout, clearTimer, timerPending]

/-- Witness for claim C4: an operation settling at 5 ms against a 10 ms
deadline returns its value; one settling at 20 ms rejects with the
timeout message; the timer is cleared in both runs. -/
theorem withTimeout_guard_witness :
    (withTimeout 5 (.ok (42 : ℕ)) 10 "op").1 = .ok 42 ∧
    (withTimeout 20 (.ok (42 : ℕ)) 10 "op").1 = .error "Timeout after 10ms: op" ∧
    timerPending (withTimeout 5 (.ok (42 : ℕ)) 10 "op").2 = false ∧
    timerPending (withTimeout 20 (.ok (42 : ℕ)) 10 "op").2 = false := by
  refine ⟨(withTimeout_guard 5 (.ok 42) 10 "op").1 (by decide), ?_,
          (withTimeout_guard 5 (.ok 42) 10 "op").2.2,
          (withTimeout_guard 20 (.ok 42) 10 "op").2.2⟩
  have h := (withTimeout_guard 20 (.ok (42 : ℕ)) 10 "op").2.1 (by decide)
  rw [h]
  rw [show ("Timeout after " ++ toString (10 : ℕ) ++ "ms: " ++ "op")
      = "Timeout after 10ms: op" from by decide]

/-- Counterexample to claim C8 as stated: when the photo and link
preview attempts fail and the caption-only text attempt succeeds, a
delivery method succeeded (method 3) yet safelySendImage returns
false, so the return value does not report success exactly when an
attempted method succeeded. -/
theorem safelySendImage_counterexample :
    (safelySendImage .failure .failure .success).delivered = some 3 ∧
    (safelySendImage .failure .failure .success).returnValue = false := by
  exact ⟨rfl, rfl⟩

/-- Claim C8 amended: delivery is attempted in the order photo with
caption, link preview with caption, caption-only text, stopping after
the first success; the function returns true exactly when the photo or
the link preview attempt succeeded, and when both fail it attempts the
text fallback but returns false even if that fallback was delivered. -/
theorem safelySendImage_order (a1 a2 a3 : SendAttempt) :
    ((safelySendImage a1 a2 a3).returnValue = true ↔
      (a1 = .success ∨ (a1 = .failure ∧ a2 = .success))) ∧
    (a1 = .success → safelySendImage a1 a2 a3 = ⟨[1], some 1, true⟩) ∧
    (a1 = .failure → a2 = .success → safelySendImage a1 a2 a3 = ⟨[1, 2], some 2, true⟩) ∧
    (a1 = .failure → a2 = .failure →
      (safelySendImage a1 a2 a3).attempted = [1, 2, 3] ∧
      (safelySendImage a1 a2 a3).returnValue = false ∧
      (a3 = .success → (safelySendImage a1 a2 a3).delivered = some 3) ∧
      (a3 = .failure → (safelySendImage a1 a2 a3).delivered = none)) := by
  cases a1 <;> cases a2 <;> cases a3 <;> decide

/-- Witness for claim C8 (amended form): a first-attempt success stops
immediately with a true return; a double failure followed by a text
success still returns false. -/
theorem safelySendImage_order_witness :
    safelySendImage .success .failure .failure = ⟨[1], some 1, true⟩ ∧
    (safelySendImage .failure .failure .success).returnValue = false := by
  exact ⟨(safelySendImage_order .success .failure .failure).2.1 rfl,
         ((safelySendImage_order .failure .failure .success).2.2.2 rfl rfl).2.1⟩

/-- Counterexample to claim C7 as stated: in a reachable registry
(obtained by two track commands, satisfying the uniqueness invariant)
in which chat 5 tracks two NFTs of collection c, the subscriber list
for c is [5, 5]: the chat id appears twice, not at most once. -/
theorem getCollectionSubscribers_counterexample :
    getCollectionSubscribers subsExample "c" = [5, 5] ∧
    ¬ (getCollectionSubscribers subsExample "c").Nodup ∧
    keysNodup subsExample ∧
    applyOps [.track (some "m1") 5 (some { name := some "a", collection := some "c" }),
              .track (some "m2") 5 (some { name := some "b", collection := some "c" })]
      = subsExample := by
  exact ⟨by decide, by decide, by unfold keysNodup; decide, by decide⟩

/-- Claim C7 amended: getCollectionSubscribers returns the chat ids of
exactly the entries whose collection field equals the symbol, one
occurrence per matching entry (so a chat id occurs as many times as
that chat has matching tracked NFTs, with no deduplication). -/
theorem getCollectionSubscribers_per_entry (reg : List TrackedNFT) (sym : String) :
    (∀ c : ℤ, (getCollectionSubscribers reg sym).count c =
        (reg.filter (fun nft => nft.collection == some sym && nft.chatId == c)).length) ∧
    (∀ c : ℤ, c ∈ getCollectionSubscribers reg sym ↔
        ∃ nft ∈ reg, nft.collection = some sym ∧ nft.chatId = c) := by
  constructor
  · intro c
    simp only [List.count_eq_countP, getCollectionSubscribers, List.countP_map,
               List.countP_filter, ← List.countP_eq_length_filter, Function.comp]
    apply List.countP_congr
    intro nft _
    simp only [Bool.and_eq_true]
    constructor
    · rintro ⟨h1, h2⟩; exact ⟨h2, h1⟩
    · rintro ⟨h1, h2⟩; exact ⟨h2, h1⟩
  · intro c
    simp only [getCollectionSubscribers, List.mem_map, List.mem_filter, beq_iff_eq]
    constructor
    · rintro ⟨nft, ⟨hmem, hcoll⟩, hc⟩
      exact ⟨nft, hmem, hcoll, hc⟩
    · rintro ⟨nft, hmem, hcoll, hc⟩
      exact ⟨nft, ⟨hmem, hcoll⟩, hc⟩

theorem jsLt_zero_jsLe_zero_false (cp : JSNum)
    (hlt : jsLt (.fin 0) cp = true) (hle : jsLe cp (.fin 0) = true) : False := by
  cases cp with
  | fin q =>
    simp only [jsLt, jsLe, decide_eq_true_eq] at hlt hle
    linarith
  | inf => simp [jsLe] at hle
  | negInf => simp [jsLt] at hlt

theorem triggerCond_iff (a : Option JSNum) (cp : JSNum) :
    triggerCond a cp = true ↔
      ∃ v, a = some v ∧ jsLt (.fin 0) cp = true ∧ jsLe cp (jsMulE9 v) = true := by
  cases a with
  | none => simp [triggerCond]
  | some v =>
    simp only [triggerCond, Bool.and_eq_true, Option.some.injEq]
    constructor
    · rintro ⟨⟨_, hlt⟩, hle⟩
      exact ⟨v, rfl, hlt, hle⟩
    · rintro ⟨w, hw, hlt, hle⟩
      subst hw
      refine ⟨⟨?_, hlt⟩, hle⟩
      cases v with
      | inf => rfl
      | negInf => rfl
      | fin q =>
        by_cases hq : q = 0
        · subst hq
          rw [show jsMulE9 (.fin 0) = .fin 0 from by simp [jsMulE9]] at hle
          exact absurd (jsLt_zero_jsLe_zero_false cp hlt hle) (fun h => h)
        · simp [jsTruthy, hq]

/-- Claim C2: in one poll cycle of the price check loop, the cycle
processes every entry in order with its own fetch outcome; for an entry
whose fetch succeeded with optional price p (currentPrice = p or 0), a
notification to the owning chat is sent if and only if alertPrice is
set, the current price is positive, and it is at most alertPrice times
1e9; when the alert fires exactly one notification is sent and
alertPrice is cleared; lastPrice is overwritten with the current price
on every successful fetch; a fetched price of 0 never triggers; and a
failed fetch leaves the entry untouched with no notification. -/
theorem priceCheck_alert_evaluator :
    (∀ pairs : List (TrackedNFT × TokenFetch),
      (priceCheckCycle pairs).1 = pairs.map (fun q => (checkNFTPrice q.1 q.2).1) ∧
      (priceCheckCycle pairs).2 =
        (pairs.map (fun q => (checkNFTPrice q.1 q.2).2)).flatten) ∧
    (∀ nft p,
      ((checkNFTPrice nft (.success p)).2 =
          [⟨nft.chatId, jsOrNum p (.fin 0), nft.alertPrice⟩] ↔
        ∃ v, nft.alertPrice = some v ∧
          jsLt (.fin 0) (jsOrNum p (.fin 0)) = true ∧
          jsLe (jsOrNum p (.fin 0)) (jsMulE9 v) = true) ∧
      ((checkNFTPrice nft (.success p)).2 = [] ∨
        (checkNFTPrice nft (.success p)).2 =
          [⟨nft.chatId, jsOrNum p (.fin 0), nft.alertPrice⟩]) ∧
      ((∃ v, nft.alertPrice = some v ∧
          jsLt (.fin 0) (jsOrNum p (.fin 0)) = true ∧
          jsLe (jsOrNum p (.fin 0)) (jsMulE9 v) = true) →
        (checkNFTPrice nft (.success p)).1.alertPrice = none) ∧
      (checkNFTPrice nft (.success p)).1.lastPrice = some (jsOrNum p (.fin 0)) ∧
      (p = some (.fin 0) → (checkNFTPrice nft (.success p)).2 = [])) ∧
    (∀ nft, checkNFTPrice nft .fail = (nft, [])) := by
  refine ⟨?_, ?_, fun _ => rfl⟩
  · intro pairs
    induction pairs with
    | nil => exact ⟨rfl, rfl⟩
    | cons q rest ih =>
      simp [priceCheckCycle, ih.1, ih.2]
  · intro nft p
    by_cases ht : triggerCond nft.alertPrice (jsOrNum p (.fin 0)) = true
    · have hiff := (triggerCond_iff nft.alertPrice (jsOrNum p (.fin 0))).mp ht
      refine ⟨?_, ?_, ?_, ?_, ?_⟩
      · simp only [checkNFTPrice, ht, if_true]
        exact ⟨fun _ => hiff, fun _ => by trivial⟩
      · right; simp [checkNFTPrice, ht]
      · intro _; simp [checkNFTPrice, ht]
      · simp [checkNFTPrice, ht]
      · intro hp
        subst hp
        have : jsOrNum (some (JSNum.fin 0)) (.fin 0) = .fin 0 := by
          simp [jsOrNum, jsTruthy]
        rw [this] at hiff
        obtain ⟨v, _, hlt, _⟩ := hiff
        simp [jsLt] at hlt
    · have hiff : ¬∃ v, nft.alertPrice = some v ∧
          jsLt (.fin 0) (jsOrNum p (.fin 0)) = true ∧
          jsLe (jsOrNum p (.fin 0)) (jsMulE9 v) = true :=
        fun h => ht ((triggerCond_iff nft.alertPrice (jsOrNum p (.fin 0))).mpr h)
      have htf : triggerCond nft.alertPrice (jsOrNum p (.fin 0)) = false :=
        Bool.not_eq_true _ |>.mp ht
      refine ⟨?_, ?_, ?_, ?_, ?_⟩
      · simp only [checkNFTPrice, htf, Bool.false_eq_true, if_false]
        constructor
        · intro h; exact absurd h (by simp)
        · intro h; exact absurd h hiff
      · left; simp [checkNFTPrice, htf]
      · intro h; exact absurd h hiff
      · simp [checkNFTPrice, htf]
      · intro _; simp [checkNFTPrice, htf]

/-- Witness for claim C2: an armed entry (alert 5 SOL) with a fetched
price of 3e9 lamports fires exactly one notification and is disarmed
with lastPrice updated; a fetched price of 0 does not fire. -/
theorem priceCheck_alert_evaluator_witness :
    (checkNFTPrice { mintAddress := "m", chatId := 9, name := "n",
                     alertPrice := some (.fin 5) }
       (.success (some (.fin 3000000000)))).2 =
      [⟨9, .fin 3000000000, some (.fin 5)⟩] ∧
    (checkNFTPrice { mintAddress := "m", chatId := 9, name := "n",
                     alertPrice := some (.fin 5) }
       (.success (some (.fin 3000000000)))).1.alertPrice = none ∧
    (checkNFTPrice { mintAddress := "m", chatId := 9, name := "n",
                     alertPrice := some (.fin 5) }
       (.success (some (.fin 0)))).2 = [] := by
  have hmain := priceCheck_alert_evaluator.2.1
    { mintAddress := "m", chatId := 9, name := "n", alertPrice := some (.fin 5) }
    (some (.fin 3000000000))
  have hzero := (priceCheck_alert_evaluator.2.1
    { mintAddress := "m", chatId := 9, name := "n", alertPrice := some (.fin 5) }
    (some (.fin 0))).2.2.2.2 rfl
  have hcond : ∃ v, (some (JSNum.fin 5) : Option JSNum) = some v ∧
      jsLt (.fin 0) (jsOrNum (some (.fin 3000000000)) (.fin 0)) = true ∧
      jsLe (jsOrNum (some (.fin 3000000000)) (.fin 0)) (jsMulE9 v) = true :=
    ⟨.fin 5, rfl, by norm_num [jsOrNum, jsTruthy, jsLt, decide_eq_true_eq],
     by norm_num [jsOrNum, jsTruthy, jsLe, jsMulE9, decide_eq_true_eq]⟩
  refine ⟨?_, hmain.2.2.1 hcond, hzero⟩
  have h1 := hmain.1.mpr hcond
  simpa using h1

/-- Claim C5: for any wall clock time past the first minute of the
epoch, the retained activities are exactly those whose blockTime is
present and falls within the last 60 seconds (the source truthiness
test on blockTime agrees with presence in this regime); retention
preserves API order; processing takes at most limit of the retained
activities, as an initial segment in API order; an activity 30 s old is
retained and one 120 seconds old is dropped. -/
theorem saleNotifier_recency (now : ℤ) (acts : List MEActivity) (limit : ℕ)
    (hnow : 60 < now) :
    recentActivities now acts = acts.filter (recentFilterSpec now) ∧
    (recentActivities now acts).Sublist acts ∧
    processedSales now limit acts = (recentActivities now acts).take limit ∧
    (processedSales now limit acts).length ≤ limit ∧
    (processedSales now limit acts).Sublist acts ∧
    recentFilterME now { blockTime := some (now - 30) } = true ∧
    recentFilterME now { blockTime := some (now - 120) } = false := by
  refine ⟨?_, List.filter_sublist acts, rfl, List.length_take_le limit _,
          (List.take_sublist limit _).trans (List.filter_sublist acts), ?_, ?_⟩
  · apply List.filter_congr
    intro a _
    cases hbt : a.blockTime with
    | none => simp [recentFilterME, recentFilterSpec, hbt]
    | some t =>
      by_cases ht : t = 0
      · subst ht
        simp only [recentFilterME, recentFilterSpec, hbt]
        rw [show ((0 : ℤ) != 0) = false from by decide]
        simp only [Bool.false_and]
        rw [show decide (now - 60 ≤ (0 : ℤ)) = false from by simp; omega]
      · simp only [recentFilterME, recentFilterSpec, hbt]
        rw [show (t != 0) = true from by simp [ht]]
        simp only [Bool.true_and]
  · simp only [recentFilterME]
    rw [show ((now - 30 : ℤ) != 0) = true from by simp; omega,
        show decide (now - 60 ≤ (now - 30 : ℤ)) = true from by simp; omega]
    rfl
  · simp only [recentFilterME]
    rw [show decide (now - 60 ≤ (now - 120 : ℤ)) = false from by simp; omega]
    simp

/-- Witness for claim C5: at wall clock time 1000, an activity with
blockTime 970 (30 s old) passes the filter and one with blockTime 880
(120 s old) does not. -/
theorem saleNotifier_recency_witness :
    recentFilterME 1000 { blockTime := some 970 } = true ∧
    recentFilterME 1000 { blockTime := some 880 } = false ∧
    (processedSales 1000 5 [{ blockTime := some 970 }, { blockTime := some 880 }]).length
      ≤ 5 := by
  have h := saleNotifier_recency 1000
    [{ blockTime := some 970 }, { blockTime := some 880 }] 5 (by decide)
  rw [show (970 : ℤ) = 1000 - 30 from by decide, show (880 : ℤ) = 1000 - 120 from by decide]
  exact ⟨h.2.2.2.2.2.1, h.2.2.2.2.2.2, h.2.2.2.1⟩

theorem trackColl_other (reg : CollReg) (symbol : String) (fetch : CollFetch) (now : ℤ)
    (s : String) (h : s ≠ symbol) :
    trackCollectionActivity reg symbol fetch now s = reg s := by
  cases hassets : fetch.assets with
  | nil => simp [trackCollectionActivity, hassets]
  | cons a rest => simp [trackCollectionActivity, hassets, h]

theorem trackColl_congr_at (reg reg' : CollReg) (symbol : String) (fetch : CollFetch)
    (now : ℤ) (h : reg symbol = reg' symbol) :
    trackCollectionActivity reg symbol fetch now symbol
      = trackCollectionActivity reg' symbol fetch now symbol := by
  cases hassets : fetch.assets with
  | nil => simp [trackCollectionActivity, hassets, h]
  | cons a rest => simp [trackCollectionActivity, hassets]

/-- Claim C6: a poll that fails or yields no activities (both arrive as
an empty asset list, since getAssetsByGroup catches internally) leaves
the stored snapshot of the collection completely untouched; a
successful poll replaces the snapshot wholesale with a value built
only from the fetched data (independent of the previous registry) and
touches no other symbol; and in one poll cycle over distinct symbols
each symbol ends up exactly as if it had been polled alone, so a
failure for one collection does not affect the others. -/
theorem collectionPoller_snapshot :
    (∀ (reg : CollReg) symbol fetch now, fetch.assets = [] →
       trackCollectionActivity reg symbol fetch now = reg) ∧
    (∀ (reg : CollReg) symbol fetch now a rest, fetch.assets = a :: rest →
       trackCollectionActivity reg symbol fetch now symbol
         = some (collSnapshot symbol fetch.stats a now) ∧
       (∀ s, s ≠ symbol → trackCollectionActivity reg symbol fetch now s = reg s) ∧
       (∀ reg' : CollReg, trackCollectionActivity reg' symbol fetch now symbol
          = trackCollectionActivity reg symbol fetch now symbol)) ∧
    (∀ (reg : CollReg) symbols fetchOf now, symbols.Nodup →
       (∀ s, s ∈ symbols →
          collPollCycle reg symbols fetchOf now s
            = trackCollectionActivity reg s (fetchOf s) now s) ∧
       (∀ s, s ∉ symbols → collPollCycle reg symbols fetchOf now s = reg s)) := by
  refine ⟨?_, ?_, ?_⟩
  · intro reg symbol fetch now h
    simp [trackCollectionActivity, h]
  · intro reg symbol fetch now a rest hassets
    refine ⟨by simp [trackCollectionActivity, hassets], ?_, ?_⟩
    · intro s hs
      exact trackColl_other reg symbol fetch now s hs
    · intro reg'
      simp [trackCollectionActivity, hassets]
  · intro reg symbols fetchOf now hnodup
    induction symbols generalizing reg with
    | nil =>
      exact ⟨fun s hs => absurd hs (List.not_mem_nil s), fun s _ => rfl⟩
    | cons x xs ih =>
      rcases List.nodup_cons.mp hnodup with ⟨hx, hxs⟩
      obtain ⟨ih1, ih2⟩ := ih (trackCollectionActivity reg x (fetchOf x) now) hxs
      constructor
      · intro s hs
        rcases List.mem_cons.mp hs with rfl | hmem
        · show collPollCycle (trackCollectionActivity reg s (fetchOf s) now) xs fetchOf now s
            = trackCollectionActivity reg s (fetchOf s) now s
          exact ih2 s hx
        · have hsx : s ≠ x := fun h => hx (h ▸ hmem)
          show collPollCycle (trackCollectionActivity reg x (fetchOf x) now) xs fetchOf now s
            = trackCollectionActivity reg s (fetchOf s) now s
          rw [ih1 s hmem]
          exact trackColl_congr_at _ reg s (fetchOf s) now
            (trackColl_other reg x (fetchOf x) now s hsx)
      · intro s hs
        have hs' : ¬(s = x ∨ s ∈ xs) := by simpa [List.mem_cons] using hs
        push_neg at hs'
        show collPollCycle (trackCollectionActivity reg x (fetchOf x) now) xs fetchOf now s
          = reg s
        rw [ih2 s hs'.2]
        exact trackColl_other reg x (fetchOf x) now s hs'.1

/-- Witness for claim C6: from the empty registry, an empty poll leaves
the registry unchanged; a successful poll writes the snapshot for its
symbol and leaves other symbols untouched. -/
theorem collectionPoller_snapshot_witness :
    trackCollectionActivity emptyCollReg "c" { assets := [], stats := none } 50
      = emptyCollReg ∧
    trackCollectionActivity emptyCollReg "c" collFetchExample 50 "c"
      = some (collSnapshot "c" collFetchExample.stats
          { price := some (.fin 2), createdAtMs := some 5, tokenMint := some "tm" } 50) ∧
    trackCollectionActivity emptyCollReg "c" collFetchExample 50 "other" = none := by
  have h1 := collectionPoller_snapshot.1 emptyCollReg "c"
    { assets := [], stats := none } 50 rfl
  have h2 := collectionPoller_snapshot.2.1 emptyCollReg "c" collFetchExample 50
    { price := some (.fin 2), createdAtMs := some 5, tokenMint := some "tm" } [] rfl
  refine ⟨h1, h2.1, ?_⟩
  rw [h2.2.1 "other" (by decide)]
  rfl

theorem exists_first_split {α : Type} (p : α → Bool) (l : List α) (h : l.any p = true) :
    ∃ l1 e l2, l = l1 ++ e :: l2 ∧ p e = true ∧ ∀ x ∈ l1, p x = false := by
  induction l with
  | nil => simp at h
  | cons a rest ih =>
    by_cases ha : p a = true
    · exact ⟨[], a, rest, rfl, ha, by simp⟩
    · simp only [Bool.not_eq_true] at ha
      have h' : rest.any p = true := by
        rw [List.any_cons, ha] at h
        simpa using h
      obtain ⟨l1, e, l2, heq, hpe, hl1⟩ := ih h'
      refine ⟨a :: l1, e, l2, by rw [heq, List.cons_append], hpe, ?_⟩
      intro x hx
      rcases List.mem_cons.mp hx with rfl | hmem
      · exact ha
      · exact hl1 x hmem

theorem findIdx?_append_first {α : Type} (p : α → Bool) :
    ∀ (l1 : List α) (e : α) (l2 : List α), (∀ x ∈ l1, p x = false) → p e = true →
      ∀ i, (l1 ++ e :: l2).findIdx? p i = some (i + l1.length) := by
  intro l1
  induction l1 with
  | nil =>
    intro e l2 _ he i
    simp [List.findIdx?_cons, he]
  | cons a rest ih =>
    intro e l2 h1 he i
    have ha := h1 a (List.mem_cons_self a rest)
    rw [List.cons_append, List.findIdx?_cons, ha]
    simp only [Bool.false_eq_true, if_false]
    rw [ih e l2 (fun x hx => h1 x (List.mem_cons_of_mem a hx)) he (i + 1)]
    congr 1
    simp only [List.length_cons]
    omega

theorem eraseIdx_append_middle {α : Type} :
    ∀ (l1 : List α) (e : α) (l2 : List α),
      (l1 ++ e :: l2).eraseIdx l1.length = l1 ++ l2 := by
  intro l1
  induction l1 with
  | nil => intro e l2; rfl
  | cons a rest ih =>
    intro e l2
    simp only [List.cons_append, List.length_cons, List.eraseIdx_cons_succ, ih e l2]

theorem setAlertAt_append_middle (v : JSNum) :
    ∀ (l1 : List TrackedNFT) (e : TrackedNFT) (l2 : List TrackedNFT),
      setAlertAt v l1.length (l1 ++ e :: l2) = l1 ++ { e with alertPrice := some v } :: l2 := by
  intro l1
  induction l1 with
  | nil => intro e l2; rfl
  | cons a rest ih =>
    intro e l2
    simp only [List.cons_append, List.length_cons, setAlertAt, List.append_eq, ih e l2]

theorem findIdx?_eq_none_of_all {α : Type} (p : α → Bool) :
    ∀ (l : List α), (∀ x ∈ l, p x = false) → ∀ i, l.findIdx? p i = none := by
  intro l
  induction l with
  | nil => intro _ _; rfl
  | cons a rest ih =>
    intro h i
    rw [List.findIdx?_cons, h a (List.mem_cons_self a rest)]
    simp only [Bool.false_eq_true, if_false]
    exact ih (fun x hx => h x (List.mem_cons_of_mem a hx)) (i + 1)

theorem hasKey_false_all (reg : List TrackedNFT) (mint : String) (chatId : ℤ)
    (h : hasKey reg mint chatId = false) :
    ∀ x ∈ reg, (x.mintAddress == mint && x.chatId == chatId) = false := by
  intro x hx
  have := List.any_eq_false.mp h x hx
  simpa [Bool.not_eq_true] using this

theorem keysNodup_trackCmd (reg : List TrackedNFT) (mint : Option String) (chatId : ℤ)
    (fetch : Option NFTMeta) (h : keysNodup reg) :
    keysNodup (trackCmd reg mint chatId fetch).1 := by
  cases mint with
  | none => exact h
  | some m =>
    by_cases hm : m = ""
    · simpa [trackCmd, hm] using h
    · by_cases hk : hasKey reg m chatId
      · simpa [trackCmd, hm, hk] using h
      · cases fetch with
        | none => simpa [trackCmd, hm, hk] using h
        | some md =>
          have hk' : hasKey reg m chatId = false := by
            simpa [Bool.not_eq_true] using hk
          have hred : (trackCmd reg (some m) chatId (some md)).1 =
              reg ++ [{ mintAddress := m, chatId := chatId,
                        name := jsStrOr md.name "Unnamed NFT",
                        collection := jsStrOrNone md.collection }] := by
            simp [trackCmd, hm, hk]
          rw [hred]
          unfold keysNodup at h ⊢
          rw [List.pairwise_append]
          refine ⟨h, List.pairwise_singleton _ _, ?_⟩
          intro a ha b hb
          rw [List.mem_singleton] at hb
          subst hb
          rintro ⟨h1, h2⟩
          have hfalse := hasKey_false_all reg m chatId hk' a ha
          simp only at h1 h2
          simp [h1, h2] at hfalse

theorem keysNodup_untrackCmd (reg : List TrackedNFT) (mint : Option String) (chatId : ℤ)
    (h : keysNodup reg) :
    keysNodup (untrackCmd reg mint chatId).1 := by
  cases mint with
  | none => exact h
  | some m =>
    by_cases hm : m = ""
    · simpa [untrackCmd, hm] using h
    · cases hidx : reg.findIdx? (fun n => n.mintAddress == m && n.chatId == chatId) with
      | none => simpa [untrackCmd, hm, hidx] using h
      | some i =>
        have hred : (untrackCmd reg (some m) chatId).1 = reg.eraseIdx i := by
          simp [untrackCmd, hm, hidx]
        rw [hred]
        exact List.Pairwise.sublist (List.eraseIdx_sublist reg i) h

theorem setAlertAt_keys (v : JSNum) :
    ∀ (l : List TrackedNFT) (i : ℕ), ∀ b ∈ setAlertAt v i l,
      ∃ b0 ∈ l, b.mintAddress = b0.mintAddress ∧ b.chatId = b0.chatId := by
  intro l
  induction l with
  | nil => intro i b hb; simp [setAlertAt] at hb
  | cons a rest ih =>
    intro i b hb
    cases i with
    | zero =>
      simp only [setAlertAt] at hb
      rcases List.mem_cons.mp hb with rfl | hmem
      · exact ⟨a, List.mem_cons_self a rest, rfl, rfl⟩
      · exact ⟨b, List.mem_cons_of_mem a hmem, rfl, rfl⟩
    | succ j =>
      simp only [setAlertAt] at hb
      rcases List.mem_cons.mp hb with rfl | hmem
      · exact ⟨b, List.mem_cons_self b rest, rfl, rfl⟩
      · obtain ⟨b0, hb0, h1, h2⟩ := ih j b hmem
        exact ⟨b0, List.mem_cons_of_mem a hb0, h1, h2⟩

theorem keysNodup_setAlertAt (v : JSNum) :
    ∀ (l : List TrackedNFT) (i : ℕ), keysNodup l → keysNodup (setAlertAt v i l) := by
  intro l
  induction l with
  | nil => intro i h; simpa [setAlertAt] using h
  | cons a rest ih =>
    intro i h
    unfold keysNodup at h
    rw [List.pairwise_cons] at h
    obtain ⟨hhead, htail⟩ := h
    cases i with
    | zero =>
      unfold keysNodup
      simp only [setAlertAt]
      rw [List.pairwise_cons]
      exact ⟨fun b hb hab => hhead b hb hab, htail⟩
    | succ j =>
      unfold keysNodup
      simp only [setAlertAt]
      rw [List.pairwise_cons]
      refine ⟨?_, ih j htail⟩
      intro b hb
      obtain ⟨b0, hb0, h1, h2⟩ := setAlertAt_keys v rest j b hb
      rintro ⟨hm, hc⟩
      exact hhead b0 hb0 ⟨hm.trans h1, hc.trans h2⟩

theorem keysNodup_alertCmd (reg : List TrackedNFT) (chatId : ℤ) (mint : Option String)
    (price : Option JSNum) (h : keysNodup reg) :
    keysNodup (alertCmd reg chatId mint price).1 := by
  cases mint with
  | none => exact h
  | some m =>
    cases price with
    | none => exact h
    | some v =>
      by_cases hm : m = ""
      · simpa [alertCmd, hm] using h
      · cases hidx : reg.findIdx? (fun n => n.mintAddress == m && n.chatId == chatId) with
        | none => simpa [alertCmd, hm, hidx] using h
        | some i =>
          have hred : (alertCmd reg chatId (some m) (some v)).1 = setAlertAt v i reg := by
            simp [alertCmd, hm, hidx]
          rw [hred]
          exact keysNodup_setAlertAt v reg i h

theorem keysNodup_applyOp (reg : List TrackedNFT) (op : BotOp) (h : keysNodup reg) :
    keysNodup (applyOp reg op) := by
  cases op with
  | track mint chatId fetch => exact keysNodup_trackCmd reg mint chatId fetch h
  | untrack mint chatId => exact keysNodup_untrackCmd reg mint chatId h
  | alert chatId mint price => exact keysNodup_alertCmd reg chatId mint price h

theorem keysNodup_applyOps (ops : List BotOp) : keysNodup (applyOps ops) := by
  suffices h : ∀ (ops : List BotOp) (reg : List TrackedNFT),
      keysNodup reg → keysNodup (ops.foldl applyOp reg) by
    exact h ops [] List.Pairwise.nil
  intro ops
  induction ops with
  | nil => intro reg h; exact h
  | cons op rest ih => intro reg h; exact ih (applyOp reg op) (keysNodup_applyOp reg op h)

/-- Claim C3: over every sequence of registry operations starting from
the empty registry the (mintAddress, chatId) pairs stay unique; track
replies alreadyTracked and leaves the registry unchanged when the pair
is already present, and otherwise (with fetched metadata) appends
exactly one entry with lastPrice unset; untrack replies notTracked and
leaves the registry unchanged when no entry matches, and otherwise
removes exactly the first matching entry and nothing else. -/
theorem registry_unique_pairs :
    (∀ ops, keysNodup (applyOps ops)) ∧
    (∀ reg mint chatId fetch, mint ≠ "" → hasKey reg mint chatId = true →
       trackCmd reg (some mint) chatId fetch = (reg, .alreadyTracked)) ∧
    (∀ reg mint chatId md, mint ≠ "" → hasKey reg mint chatId = false →
       trackCmd reg (some mint) chatId (some md) =
         (reg ++ [{ mintAddress := mint, chatId := chatId,
                    name := jsStrOr md.name "Unnamed NFT",
                    lastPrice := none, alertPrice := none,
                    collection := jsStrOrNone md.collection }], .tracked)) ∧
    (∀ reg mint chatId, mint ≠ "" → hasKey reg mint chatId = false →
       untrackCmd reg (some mint) chatId = (reg, .notTracked)) ∧
    (∀ reg mint chatId, mint ≠ "" → hasKey reg mint chatId = true →
       ∃ l1 e l2, reg = l1 ++ e :: l2 ∧
         e.mintAddress = mint ∧ e.chatId = chatId ∧
         (∀ x ∈ l1, ¬(x.mintAddress = mint ∧ x.chatId = chatId)) ∧
         untrackCmd reg (some mint) chatId = (l1 ++ l2, .removed)) := by
  refine ⟨keysNodup_applyOps, ?_, ?_, ?_, ?_⟩
  · intro reg mint chatId fetch hm hk
    simp [trackCmd, hm, hk]
  · intro reg mint chatId md hm hk
    simp [trackCmd, hm, hk]
  · intro reg mint chatId hm hk
    have hnone := findIdx?_eq_none_of_all
      (fun n => n.mintAddress == mint && n.chatId == chatId) reg
      (hasKey_false_all reg mint chatId hk) 0
    simp [untrackCmd, hm, hnone]
  · intro reg mint chatId hm hk
    have hk' : reg.any (fun n => n.mintAddress == mint && n.chatId == chatId) = true := hk
    obtain ⟨l1, e, l2, heq, hpe, hl1⟩ := exists_first_split
      (fun n => n.mintAddress == mint && n.chatId == chatId) reg hk'
    subst heq
    have hpe' : e.mintAddress = mint ∧ e.chatId = chatId := by
      simpa [Bool.and_eq_true, beq_iff_eq] using hpe
    have hidx := findIdx?_append_first
      (fun n => n.mintAddress == mint && n.chatId == chatId) l1 e l2 hl1 hpe 0
    rw [Nat.zero_add] at hidx
    refine ⟨l1, e, l2, rfl, hpe'.1, hpe'.2, ?_, ?_⟩
    · intro x hx
      rintro ⟨h1, h2⟩
      have := hl1 x hx
      simp [h1, h2] at this
    · simp [untrackCmd, hm, hidx, eraseIdx_append_middle]

/-- Witness for claim C3: the invariant holds after a concrete track
and untrack sequence; tracking an already-tracked pair replies
alreadyTracked without change; untracking an absent pair replies
notTracked without change. -/
theorem registry_unique_pairs_witness :
    keysNodup (applyOps [.track (some "m1") 5 (some { name := some "a" }),
                         .untrack (some "m1") 5]) ∧
    trackCmd subsExample (some "m1") 5 none = (subsExample, .alreadyTracked) ∧
    untrackCmd [] (some "m1") 5 = ([], .notTracked) := by
  refine ⟨registry_unique_pairs.1 _, ?_, ?_⟩
  · exact registry_unique_pairs.2.1 subsExample "m1" 5 none (by decide) (by decide)
  · exact registry_unique_pairs.2.2.2.1 [] "m1" 5 (by decide) (by decide)

/-- Claim C10: the alert command stores any parsed price that is not
NaN, including zero, negative values, and Infinity, into the first
matching entry; a NaN price (or missing mint) is rejected with a usage
reply; and a stored alertPrice of exactly 0 is inert: the price check
loop never sends a notification for it (and leaves it in place), and
the list command never shows an alert line for it, because both paths
test the field for truthiness. -/
theorem alert_store_and_zero_inert :
    (∀ reg chatId mint (v : JSNum) l1 e l2,
       mint ≠ "" → reg = l1 ++ e :: l2 →
       (∀ x ∈ l1, ¬(x.mintAddress = mint ∧ x.chatId = chatId)) →
       e.mintAddress = mint → e.chatId = chatId →
       alertCmd reg chatId (some mint) (some v) =
         (l1 ++ { e with alertPrice := some v } :: l2, .confirmed)) ∧
    (∀ reg chatId mint, alertCmd reg chatId mint none = (reg, .usage)) ∧
    (∀ reg chatId (v : JSNum), alertCmd reg chatId none (some v) = (reg, .usage)) ∧
    (∀ nft p, nft.alertPrice = some (.fin 0) →
       (checkNFTPrice nft (.success p)).2 = [] ∧
       (checkNFTPrice nft (.success p)).1.alertPrice = some (.fin 0)) ∧
    (∀ nft res pr, nft.alertPrice = some (.fin 0) →
       ListLine.alertLine pr ∉ listEntryLines nft res) := by
  refine ⟨?_, ?_, fun _ _ _ => rfl, ?_, ?_⟩
  · intro reg chatId mint v l1 e l2 hm heq hl1 hme hch
    subst heq
    have hpl1 : ∀ x ∈ l1,
        (fun n => n.mintAddress == mint && n.chatId == chatId) x = false := by
      intro x hx
      rw [Bool.eq_false_iff]
      intro hc
      simp only [Bool.and_eq_true, beq_iff_eq] at hc
      exact hl1 x hx hc
    have hidx := findIdx?_append_first
      (fun n => n.mintAddress == mint && n.chatId == chatId) l1 e l2 hpl1
      (by simp [hme, hch]) 0
    rw [Nat.zero_add] at hidx
    simp [alertCmd, hm, hidx, setAlertAt_append_middle]
  · intro reg chatId mint
    cases mint <;> rfl
  · intro nft p halert
    have htf : triggerCond (some (JSNum.fin 0)) (jsOrNum p (.fin 0)) = false := by
      simp [triggerCond, jsTruthy]
    constructor
    · simp [checkNFTPrice, halert, htf]
    · simp [checkNFTPrice, halert, htf]
  · intro nft res pr halert
    cases res with
    | fail => simp [listEntryLines]
    | success nm coll => simp [listEntryLines, halert, jsTruthy]

/-- Witness for claim C10: storing Infinity and storing 0 both succeed
on a tracked entry; with a stored 0 alert, a poll with positive price
sends nothing, and the list command shows no alert line. -/
theorem alert_store_and_zero_inert_witness :
    alertCmd [{ mintAddress := "m", chatId := 7, name := "n" }] 7 (some "m") (some .inf)
      = ([{ mintAddress := "m", chatId := 7, name := "n", alertPrice := some .inf }],
         .confirmed) ∧
    alertCmd [{ mintAddress := "m", chatId := 7, name := "n" }] 7 (some "m")
        (some (.fin 0))
      = ([{ mintAddress := "m", chatId := 7, name := "n", alertPrice := some (.fin 0) }],
         .confirmed) ∧
    (checkNFTPrice { mintAddress := "m", chatId := 7, name := "n",
                     alertPrice := some (.fin 0) }
       (.success (some (.fin 1)))).2 = [] ∧
    ListLine.alertLine (.fin 0) ∉
      listEntryLines { mintAddress := "m", chatId := 7, name := "n",
                       alertPrice := some (.fin 0) }
        (.success (some "n") none) := by
  have h1 := alert_store_and_zero_inert.1
    [{ mintAddress := "m", chatId := 7, name := "n" }] 7 "m" .inf
    [] { mintAddress := "m", chatId := 7, name := "n" } []
    (by decide) rfl (by simp) rfl rfl
  have h2 := alert_store_and_zero_inert.1
    [{ mintAddress := "m", chatId := 7, name := "n" }] 7 "m" (.fin 0)
    [] { mintAddress := "m", chatId := 7, name := "n" } []
    (by decide) rfl (by simp) rfl rfl
  have h3 := (alert_store_and_zero_inert.2.2.2.1
    { mintAddress := "m", chatId := 7, name := "n", alertPrice := some (.fin 0) }
    (some (.fin 1)) rfl).1
  have h4 := alert_store_and_zero_inert.2.2.2.2
    { mintAddress := "m", chatId := 7, name := "n", alertPrice := some (.fin 0) }
    (.success (some "n") none) (.fin 0) rfl
  exact ⟨by simpa using h1, by simpa using h2, h3, h4⟩
